import Mathlib

set_option linter.unusedVariables false
set_option linter.unnecessarySeqFocus false

namespace Engine2D

/-- Two-dimensional vector with rational coordinates, modelling the float pair `Vec2`. -/
structure Vec2 where
  x : ℚ
  y : ℚ
deriving DecidableEq, Repr

/-- Spatial component: position, rotation in degrees, scale.  Field defaults mirror
the in-class initialisers `pos{0,0}`, `rot{0}`, `scale{1,1}` of the source. -/
structure Transform where
  pos : Vec2 := ⟨0, 0⟩
  rot : ℚ := 0
  scale : Vec2 := ⟨1, 1⟩
deriving DecidableEq, Repr

/-- Visual component: an optional texture handle (`none` models the null `SDL_Texture*`)
plus intrinsic pixel width and height. -/
structure Sprite where
  tex : Option Nat := none
  w : Int := 0
  h : Int := 0
deriving DecidableEq, Repr

/-- Motion component: velocity and (unused) mass, mirroring `Rigidbody`. -/
structure Rigidbody where
  vel : Vec2 := ⟨0, 0⟩
  mass : ℚ := 1
deriving DecidableEq, Repr

/-- Entity identifiers are plain integers, as in `using Entity = int`. -/
abbrev Entity := Int

/-- Component tables (`std::unordered_map<Entity, T>`) are modelled as association
lists with at most one binding per key (maintained by `upsert`). -/
abbrev Table (α : Type) := List (Entity × α)

/-- Key lookup in a component table; models `map[e]` reads guarded by `map.count(e)`. -/
def alookup {α : Type} : Table α → Entity → Option α
  | [], _ => none
  | (k, v) :: rest, e => if k = e then some v else alookup rest e

/-- Presence test, modelling `map.count(e)` of `std::unordered_map` (0 or 1). -/
def containsKey {α : Type} (m : Table α) (e : Entity) : Bool :=
  (alookup m e).isSome

/-- Number of bindings a table holds for a given key. -/
def countKey {α : Type} (m : Table α) (e : Entity) : Nat :=
  (m.filter (fun p => p.1 = e)).length

/-- Insert-or-replace, modelling `map[e] = v` of `std::unordered_map`. -/
def upsert {α : Type} : Table α → Entity → α → Table α
  | [], e, v => [(e, v)]
  | (k, w) :: rest, e, v => if k = e then (k, v) :: rest else (k, w) :: upsert rest e v

/-- The entity registry, mirroring `struct EntityManager`: a monotone id counter,
the live-entity list, and the three component tables. -/
structure EntityManager where
  nextId : Entity := 1
  entities : List Entity := []
  transforms : Table Transform := []
  sprites : Table Sprite := []
  bodies : Table Rigidbody := []
deriving Repr

/-- `EntityManager::create`: issue `nextId`, bump the counter, append the id to the
live list and default-initialise its Transform. -/
def EntityManager.create (em : EntityManager) : Entity × EntityManager :=
  let e := em.nextId
  (e, { em with
        nextId := em.nextId + 1
        entities := em.entities ++ [e]
        transforms := upsert em.transforms e {} })

/-- `EntityManager::destroyAll`: clear the live list and every component table and
reset the id counter to 1. -/
def EntityManager.destroyAll (em : EntityManager) : EntityManager :=
  { em with entities := [], transforms := [], sprites := [], bodies := [], nextId := 1 }

/-- Body of the `physicsSystem` loop for one entity: skip unless both a Rigidbody
and a Transform are present; otherwise integrate position by `vel * dt` and then
damp each velocity component by the factor 0.98. -/
def physicsStep (dt : ℚ) (em : EntityManager) (e : Entity) : EntityManager :=
  match alookup em.bodies e, alookup em.transforms e with
  | some rb, some t =>
      { em with
        transforms := upsert em.transforms e
          { t with pos := ⟨t.pos.x + rb.vel.x * dt, t.pos.y + rb.vel.y * dt⟩ }
        bodies := upsert em.bodies e
          { rb with vel := ⟨rb.vel.x * (0.98 : ℚ), rb.vel.y * (0.98 : ℚ)⟩ } }
  | _, _ => em

/-- `physicsSystem`: iterate the per-entity physics body over the live list. -/
def physicsSystem (em : EntityManager) (dt : ℚ) : EntityManager :=
  em.entities.foldl (physicsStep dt) em

/-- Input snapshot, mirroring `struct InputState`. -/
structure InputState where
  quit : Bool := false
  axisX : ℚ := 0
  axisY : ℚ := 0
  left : Bool := false
  right : Bool := false
  up : Bool := false
  down : Bool := false
deriving DecidableEq, Repr

/-- `playerControlSystem`: no-op without a Rigidbody on the player, otherwise add
`axis * speed` to the player's velocity. -/
def playerControlSystem (player : Entity) (em : EntityManager) (inp : InputState)
    (speed : ℚ) : EntityManager :=
  match alookup em.bodies player with
  | none => em
  | some rb =>
      { em with
        bodies := upsert em.bodies player
          { rb with vel := ⟨rb.vel.x + inp.axisX * speed, rb.vel.y + inp.axisY * speed⟩ } }

/-- Truncation toward zero of a rational, modelling C++ `int(float)` conversion:
floor for nonnegative values, ceiling for negative ones. -/
def ctrunc (q : ℚ) : Int :=
  if 0 ≤ q then ⌊q⌋ else ⌈q⌉

/-- Rounding to the nearest integer with ties away from zero, modelling
`std::round`. -/
def cround (q : ℚ) : Int :=
  if q < 0 then -⌊-q + 1 / 2⌋ else ⌊q + 1 / 2⌋

/-- Destination rectangle in integer pixels, modelling `SDL_Rect`. -/
structure SDLRect where
  x : Int
  y : Int
  w : Int
  h : Int
deriving DecidableEq, Repr

/-- One draw issued by the render traversal: the texture handle, the destination
rectangle, the rotation angle in degrees, and whether any flip was requested
(`SDL_RenderCopyEx` is always invoked with `SDL_FLIP_NONE`). -/
structure DrawCall where
  tex : Nat
  dst : SDLRect
  angle : ℚ
  flipped : Bool
deriving DecidableEq, Repr

/-- Loop body of `renderSystem` over a list of entities: skip entities lacking a
Sprite or a Transform or holding a null texture; otherwise emit one draw with
`dst.w = int(sp.w * scale.x)`, `dst.h = int(sp.h * scale.y)`,
`dst.x = int(round(pos.x - dst.w / 2))` (the halving is C++ integer division) and
`dst.y` likewise. -/
def renderLoop (em : EntityManager) : List Entity → List DrawCall
  | [] => []
  | e :: rest =>
    match alookup em.sprites e, alookup em.transforms e with
    | some sp, some tr =>
      match sp.tex with
      | none => renderLoop em rest
      | some tex =>
        let w : Int := ctrunc ((sp.w : ℚ) * tr.scale.x)
        let h : Int := ctrunc ((sp.h : ℚ) * tr.scale.y)
        let x : Int := cround (tr.pos.x - ((Int.tdiv w 2 : Int) : ℚ))
        let y : Int := cround (tr.pos.y - ((Int.tdiv h 2 : Int) : ℚ))
        ⟨tex, ⟨x, y, w, h⟩, tr.rot, false⟩ :: renderLoop em rest
    | _, _ => renderLoop em rest

/-- `renderSystem`, abstracted over the presentation collaborator: the list of draws
issued for one frame, in live-list order. -/
def renderSystem (em : EntityManager) : List DrawCall :=
  renderLoop em em.entities

/-- Keys the engine reacts to (`SDLK_a/d/w/s/ESCAPE`); `other` stands for any key
whose events fall through the switch. -/
inductive Key
  | a | d | w | s | escape | other
deriving DecidableEq, Repr

/-- Events delivered by one poll loop, modelling the `SDL_PollEvent` stream:
a quit request, key presses and releases, or anything else (ignored). -/
inductive Event
  | quitEvent
  | keyDown (k : Key)
  | keyUp (k : Key)
  | other
deriving DecidableEq, Repr

/-- Effect of a single polled event on the snapshot, mirroring the event loop body
of `processInput` (directional flags follow the key's up/down state; escape sets
quit only on key-down; quit events set quit). -/
def applyEvent (s : InputState) (e : Event) : InputState :=
  match e with
  | .quitEvent => { s with quit := true }
  | .keyDown k =>
      match k with
      | .a => { s with left := true }
      | .d => { s with right := true }
      | .w => { s with up := true }
      | .s => { s with down := true }
      | .escape => { s with quit := true }
      | .other => s
  | .keyUp k =>
      match k with
      | .a => { s with left := false }
      | .d => { s with right := false }
      | .w => { s with up := false }
      | .s => { s with down := false }
      | .escape => s
      | .other => s
  | .other => s

/-- The snapshot with axes zeroed and all four directional flags cleared, as done
at the top of `processInput`; the quit flag is carried over unchanged. -/
def resetFlags (s : InputState) : InputState :=
  { s with axisX := 0, axisY := 0, left := false, right := false, up := false, down := false }

/-- `processInput`: zero the axes and the four directional flags (the quit flag is
not reset), fold the polled events, then derive the axes from the final flags. -/
def processInput (s : InputState) (events : List Event) : InputState :=
  let s1 := events.foldl applyEvent (resetFlags s)
  let s2 := if s1.left then { s1 with axisX := s1.axisX - 1 } else s1
  let s3 := if s2.right then { s2 with axisX := s2.axisX + 1 } else s2
  let s4 := if s3.up then { s3 with axisY := s3.axisY - 1 } else s3
  if s4.down then { s4 with axisY := s4.axisY + 1 } else s4

/-- The fixed timestep `TARGET_DT = 1.0f / 60.0f`. -/
def TARGET_DT : ℚ := 1 / 60

/-- One fixed tick of the drain loop in `main`: control system at speed
`200 * TARGET_DT`, then physics system at `TARGET_DT`. -/
def fixedTick (player : Entity) (inp : InputState) (em : EntityManager) : EntityManager :=
  physicsSystem (playerControlSystem player em inp ((200 : ℚ) * TARGET_DT)) TARGET_DT

/-- Systems invoked during one outer iteration, used to record invocation order. -/
inductive SysCall
  | pollInput | control | physics | render
deriving DecidableEq, Repr

/-- The inner drain of `main`: while the accumulator is at least `TARGET_DT`, run
control then physics and subtract `TARGET_DT`.  Returns the final store, the final
accumulator, and the trace of system invocations. -/
def drain (player : Entity) (inp : InputState) (em : EntityManager) (acc : ℚ) :
    EntityManager × ℚ × List SysCall :=
  if h : TARGET_DT ≤ acc then
    let em2 := physicsSystem (playerControlSystem player em inp ((200 : ℚ) * TARGET_DT)) TARGET_DT
    let r := drain player inp em2 (acc - TARGET_DT)
    (r.1, r.2.1, SysCall.control :: SysCall.physics :: r.2.2)
  else (em, acc, [])
termination_by (⌊acc / TARGET_DT⌋).toNat
decreasing_by
  have hdt : (0 : ℚ) < TARGET_DT := by norm_num [TARGET_DT]
  have h1 : (acc - TARGET_DT) / TARGET_DT = acc / TARGET_DT - 1 := by
    field_simp
  have h2 : (1 : ℚ) ≤ acc / TARGET_DT := (one_le_div hdt).mpr h
  have h3 : (1 : ℤ) ≤ ⌊acc / TARGET_DT⌋ := by
    exact_mod_cast Int.le_floor.mpr (by exact_mod_cast h2)
  have h4 : ⌊(acc - TARGET_DT) / TARGET_DT⌋ = ⌊acc / TARGET_DT⌋ - 1 := by
    rw [h1]
    exact_mod_cast Int.floor_sub_int (acc / TARGET_DT) 1
  omega

/-- Mutable state carried across outer-loop iterations: the entity store, the
persistent input snapshot and the time accumulator. -/
structure LoopState where
  em : EntityManager
  input : InputState
  accumulator : ℚ

/-- One iteration of the outer loop of `main`: add the measured elapsed time to the
accumulator, poll input once, drain whole fixed ticks, then render once.  Returns
the next loop state together with the trace of system invocations. -/
def outerIteration (player : Entity) (elapsed : ℚ) (events : List Event)
    (st : LoopState) : LoopState × List SysCall :=
  let acc := st.accumulator + elapsed
  let inp := processInput st.input events
  let r := drain player inp st.em acc
  (⟨r.1, inp, r.2.1⟩, SysCall.pollInput :: r.2.2 ++ [SysCall.render])

theorem alookup_upsert_self {α : Type} (m : Table α) (e : Entity) (v : α) :
    alookup (upsert m e v) e = some v := by
  induction m with
  | nil => simp [upsert, alookup]
  | cons p rest ih =>
      obtain ⟨k, w⟩ := p
      by_cases hk : k = e
      · simp [upsert, alookup, hk]
      · simp [upsert, alookup, hk, ih]

theorem alookup_upsert_ne {α : Type} (m : Table α) (e e' : Entity) (v : α)
    (hne : e' ≠ e) : alookup (upsert m e v) e' = alookup m e' := by
  induction m with
  | nil => simp [upsert, alookup, Ne.symm hne]
  | cons p rest ih =>
      obtain ⟨k, w⟩ := p
      by_cases hk : k = e
      · subst hk
        simp [upsert, alookup, Ne.symm hne]
      · by_cases hk' : k = e'
        · simp [upsert, alookup, hk, hk', hne]
        · simp [upsert, alookup, hk, hk', ih]

theorem upsert_self_of_alookup {α : Type} (m : Table α) (e : Entity) (v : α)
    (h : alookup m e = some v) : upsert m e v = m := by
  induction m with
  | nil => simp [alookup] at h
  | cons p rest ih =>
      obtain ⟨k, w⟩ := p
      by_cases hk : k = e
      · simp [alookup, hk] at h
        simp [upsert, hk, h]
      · simp [alookup, hk] at h
        simp [upsert, hk, ih h]

theorem countKey_cons {α : Type} (k : Entity) (w : α) (rest : Table α) (e : Entity) :
    countKey ((k, w) :: rest) e = (if k = e then 1 else 0) + countKey rest e := by
  by_cases h : k = e <;> simp [countKey, List.filter_cons, h] <;> omega

theorem alookup_eq_none_iff_countKey {α : Type} (m : Table α) (e : Entity) :
    alookup m e = none ↔ countKey m e = 0 := by
  induction m with
  | nil => simp [alookup, countKey]
  | cons p rest ih =>
      obtain ⟨k, w⟩ := p
      by_cases hk : k = e <;> simp [alookup, countKey_cons, hk, ih]

theorem countKey_upsert_self_pos {α : Type} (m : Table α) (e : Entity) (v : α)
    (h : countKey m e ≠ 0) : countKey (upsert m e v) e = countKey m e := by
  induction m with
  | nil => simp [countKey] at h
  | cons p rest ih =>
      obtain ⟨k, w⟩ := p
      by_cases hk : k = e
      · simp [upsert, hk, countKey_cons]
      · simp [countKey_cons, hk] at h
        simp [upsert, hk, countKey_cons, ih h]

theorem countKey_upsert_self_zero {α : Type} (m : Table α) (e : Entity) (v : α)
    (h : countKey m e = 0) : countKey (upsert m e v) e = 1 := by
  induction m with
  | nil => simp [upsert, countKey_cons, countKey]
  | cons p rest ih =>
      obtain ⟨k, w⟩ := p
      by_cases hk : k = e
      · simp [countKey_cons, hk] at h
      · simp [countKey_cons, hk] at h
        simp [upsert, hk, countKey_cons, ih h]

theorem countKey_upsert_ne {α : Type} (m : Table α) (e e' : Entity) (v : α)
    (hne : e' ≠ e) : countKey (upsert m e v) e' = countKey m e' := by
  induction m with
  | nil => simp [upsert, countKey_cons, countKey, Ne.symm hne]
  | cons p rest ih =>
      obtain ⟨k, w⟩ := p
      by_cases hk : k = e
      · subst hk
        simp [upsert, countKey_cons]
      · simp [upsert, hk, countKey_cons, ih]

theorem countKey_pos_of_mem_upsert {α : Type} (m : Table α) (e e' : Entity) (v : α)
    (h : countKey (upsert m e v) e' ≠ 0) : e' = e ∨ countKey m e' ≠ 0 := by
  by_cases he : e' = e
  · exact Or.inl he
  · right
    rwa [countKey_upsert_ne m e e' v he] at h

theorem physicsStep_entities (dt : ℚ) (em : EntityManager) (a : Entity) :
    (physicsStep dt em a).entities = em.entities := by
  unfold physicsStep
  cases hb : alookup em.bodies a <;> cases ht : alookup em.transforms a <;> rfl

theorem physicsStep_nextId (dt : ℚ) (em : EntityManager) (a : Entity) :
    (physicsStep dt em a).nextId = em.nextId := by
  unfold physicsStep
  cases hb : alookup em.bodies a <;> cases ht : alookup em.transforms a <;> rfl

theorem physicsStep_sprites (dt : ℚ) (em : EntityManager) (a : Entity) :
    (physicsStep dt em a).sprites = em.sprites := by
  unfold physicsStep
  cases hb : alookup em.bodies a <;> cases ht : alookup em.transforms a <;> rfl

theorem physicsStep_alookup_ne (dt : ℚ) (em : EntityManager) (a e : Entity) (hne : e ≠ a) :
    alookup (physicsStep dt em a).transforms e = alookup em.transforms e ∧
    alookup (physicsStep dt em a).bodies e = alookup em.bodies e := by
  unfold physicsStep
  cases hb : alookup em.bodies a <;> cases ht : alookup em.transforms a
  · exact ⟨rfl, rfl⟩
  · exact ⟨rfl, rfl⟩
  · exact ⟨rfl, rfl⟩
  · exact ⟨alookup_upsert_ne _ _ _ _ hne, alookup_upsert_ne _ _ _ _ hne⟩

theorem physicsStep_self (dt : ℚ) (em : EntityManager) (e : Entity) (rb : Rigidbody)
    (t : Transform) (hb : alookup em.bodies e = some rb) (ht : alookup em.transforms e = some t) :
    alookup (physicsStep dt em e).transforms e =
      some { t with pos := ⟨t.pos.x + rb.vel.x * dt, t.pos.y + rb.vel.y * dt⟩ } ∧
    alookup (physicsStep dt em e).bodies e =
      some { rb with vel := ⟨rb.vel.x * (0.98 : ℚ), rb.vel.y * (0.98 : ℚ)⟩ } := by
  unfold physicsStep
  rw [hb, ht]
  exact ⟨alookup_upsert_self _ _ _, alookup_upsert_self _ _ _⟩

theorem physicsStep_skip (dt : ℚ) (em : EntityManager) (e : Entity)
    (h : alookup em.bodies e = none ∨ alookup em.transforms e = none) :
    physicsStep dt em e = em := by
  unfold physicsStep
  cases hb : alookup em.bodies e <;> cases ht : alookup em.transforms e <;>
    first
      | rfl
      | (rcases h with h | h <;> simp_all)

theorem foldl_physicsStep_entities (dt : ℚ) (l : List Entity) :
    ∀ em : EntityManager, (l.foldl (physicsStep dt) em).entities = em.entities := by
  induction l with
  | nil => intro em; rfl
  | cons a l ih => intro em; rw [List.foldl_cons, ih, physicsStep_entities]

theorem foldl_physicsStep_not_mem (dt : ℚ) (l : List Entity) (e : Entity) :
    ∀ em : EntityManager, e ∉ l →
      alookup (l.foldl (physicsStep dt) em).transforms e = alookup em.transforms e ∧
      alookup (l.foldl (physicsStep dt) em).bodies e = alookup em.bodies e := by
  induction l with
  | nil => intro em _; exact ⟨rfl, rfl⟩
  | cons a l ih =>
      intro em h
      have hea : e ≠ a := fun hh => h (hh ▸ List.mem_cons_self a l)
      obtain ⟨p1, p2⟩ := physicsStep_alookup_ne dt em a e hea
      obtain ⟨q1, q2⟩ := ih (physicsStep dt em a) (fun hm => h (List.mem_cons_of_mem a hm))
      rw [List.foldl_cons]
      exact ⟨q1.trans p1, q2.trans p2⟩

theorem foldl_physicsStep_mem (dt : ℚ) (l : List Entity) (e : Entity) :
    ∀ em : EntityManager, l.Nodup → e ∈ l →
      ∀ rb t, alookup em.bodies e = some rb → alookup em.transforms e = some t →
      alookup (l.foldl (physicsStep dt) em).transforms e =
        some { t with pos := ⟨t.pos.x + rb.vel.x * dt, t.pos.y + rb.vel.y * dt⟩ } ∧
      alookup (l.foldl (physicsStep dt) em).bodies e =
        some { rb with vel := ⟨rb.vel.x * (0.98 : ℚ), rb.vel.y * (0.98 : ℚ)⟩ } := by
  induction l with
  | nil => intro em _ h; cases h
  | cons a l ih =>
      intro em hnd hmem rb t hb ht
      rw [List.foldl_cons]
      by_cases hea : e = a
      · subst hea
        have hnotmem : e ∉ l := (List.nodup_cons.mp hnd).1
        obtain ⟨s1, s2⟩ := physicsStep_self dt em e rb t hb ht
        obtain ⟨f1, f2⟩ := foldl_physicsStep_not_mem dt l e (physicsStep dt em e) hnotmem
        exact ⟨f1.trans s1, f2.trans s2⟩
      · have hmem' : e ∈ l := by
          rcases List.mem_cons.mp hmem with h | h
          · exact absurd h hea
          · exact h
        obtain ⟨p1, p2⟩ := physicsStep_alookup_ne dt em a e hea
        exact ih (physicsStep dt em a) (List.nodup_cons.mp hnd).2 hmem' rb t
          (p2.trans hb) (p1.trans ht)

theorem foldl_physicsStep_skip (dt : ℚ) (l : List Entity) (e : Entity) :
    ∀ em : EntityManager,
      alookup em.bodies e = none ∨ alookup em.transforms e = none →
      alookup (l.foldl (physicsStep dt) em).transforms e = alookup em.transforms e ∧
      alookup (l.foldl (physicsStep dt) em).bodies e = alookup em.bodies e := by
  induction l with
  | nil => intro em _; exact ⟨rfl, rfl⟩
  | cons a l ih =>
      intro em h
      rw [List.foldl_cons]
      by_cases hea : e = a
      · subst hea
        rw [physicsStep_skip dt em e h]
        exact ih em h
      · obtain ⟨p1, p2⟩ := physicsStep_alookup_ne dt em a e hea
        have h' : alookup (physicsStep dt em a).bodies e = none ∨
            alookup (physicsStep dt em a).transforms e = none := by
          rcases h with h | h
          · exact Or.inl (p2.trans h)
          · exact Or.inr (p1.trans h)
        obtain ⟨q1, q2⟩ := ih (physicsStep dt em a) h'
        exact ⟨q1.trans p1, q2.trans p2⟩

/-- Claim C1: in every physics invocation with timestep dt, each live entity with
both a Transform and a Rigidbody gets position := position + velocity * dt
componentwise and then velocity := velocity * 0.98 componentwise; entities lacking
either component keep both table entries unchanged, and the live list is unchanged.
In particular an entity with velocity (100,0) ticked at dt = 1/60 gains 100/60 on
position.x and ends with velocity.x = 98. -/
theorem claim_C1 (em : EntityManager) (dt : ℚ) (e : Entity)
    (hnd : em.entities.Nodup) (hmem : e ∈ em.entities) :
    (∀ rb t, alookup em.bodies e = some rb → alookup em.transforms e = some t →
      alookup (physicsSystem em dt).transforms e =
        some { t with pos := ⟨t.pos.x + rb.vel.x * dt, t.pos.y + rb.vel.y * dt⟩ } ∧
      alookup (physicsSystem em dt).bodies e =
        some { rb with vel := ⟨rb.vel.x * (0.98 : ℚ), rb.vel.y * (0.98 : ℚ)⟩ }) ∧
    ((alookup em.bodies e = none ∨ alookup em.transforms e = none) →
      alookup (physicsSystem em dt).transforms e = alookup em.transforms e ∧
      alookup (physicsSystem em dt).bodies e = alookup em.bodies e) ∧
    (physicsSystem em dt).entities = em.entities ∧
    (∀ rb t, alookup em.bodies e = some rb → alookup em.transforms e = some t →
      rb.vel = ⟨100, 0⟩ → dt = 1 / 60 →
      ∃ t' rb', alookup (physicsSystem em dt).transforms e = some t' ∧
        alookup (physicsSystem em dt).bodies e = some rb' ∧
        t'.pos.x = t.pos.x + 100 / 60 ∧ rb'.vel.x = 98) := by
  refine ⟨?_, ?_, foldl_physicsStep_entities dt em.entities em, ?_⟩
  · intro rb t hb ht
    exact foldl_physicsStep_mem dt em.entities e em hnd hmem rb t hb ht
  · intro h
    exact foldl_physicsStep_skip dt em.entities e em h
  · intro rb t hb ht hv hdt
    obtain ⟨h1, h2⟩ := foldl_physicsStep_mem dt em.entities e em hnd hmem rb t hb ht
    refine ⟨_, _, h1, h2, ?_, ?_⟩
    · simp [hv, hdt]
      norm_num
    · simp [hv]
      norm_num

/-- A one-entity store whose sole entity sits at the origin with velocity (100,0),
used to instantiate the physics claims. -/
def emMoving : EntityManager where
  nextId := 2
  entities := [1]
  transforms := [(1, {})]
  sprites := []
  bodies := [(1, { vel := ⟨100, 0⟩ })]

/-- Concrete instantiation of the C1 theorem: a single entity with velocity (100,0)
at the origin, ticked once at dt = 1/60. -/
theorem claim_C1_witness :
    ∃ t' rb',
      alookup (physicsSystem emMoving (1 / 60)).transforms 1 = some t' ∧
      alookup (physicsSystem emMoving (1 / 60)).bodies 1 = some rb' ∧
      t'.pos.x = (0 : ℚ) + 100 / 60 ∧ rb'.vel.x = 98 :=
  (claim_C1 emMoving (1 / 60) 1 (by decide) (by decide)).2.2.2
    { vel := ⟨100, 0⟩ } {} rfl rfl rfl rfl

/-- Claim C6: the control system adds exactly (axisX * speed, axisY * speed) to the
existing velocity of the controlled entity when it has a Rigidbody, changes no
other component of any entity, and is a no-op when the controlled entity has no
Rigidbody. -/
theorem claim_C6 (p : Entity) (em : EntityManager) (inp : InputState) (s : ℚ) :
    (playerControlSystem p em inp s).transforms = em.transforms ∧
    (playerControlSystem p em inp s).sprites = em.sprites ∧
    (playerControlSystem p em inp s).entities = em.entities ∧
    (playerControlSystem p em inp s).nextId = em.nextId ∧
    (∀ q, q ≠ p → alookup (playerControlSystem p em inp s).bodies q = alookup em.bodies q) ∧
    (∀ rb, alookup em.bodies p = some rb →
      alookup (playerControlSystem p em inp s).bodies p =
        some { rb with vel := ⟨rb.vel.x + inp.axisX * s, rb.vel.y + inp.axisY * s⟩ }) ∧
    (alookup em.bodies p = none → playerControlSystem p em inp s = em) := by
  unfold playerControlSystem
  cases h : alookup em.bodies p with
  | none =>
      refine ⟨rfl, rfl, rfl, rfl, fun q _ => rfl, ?_, fun _ => rfl⟩
      intro rb hrb
      exact Option.noConfusion hrb
  | some rb =>
      refine ⟨rfl, rfl, rfl, rfl, ?_, ?_, ?_⟩
      · intro q hq
        exact alookup_upsert_ne _ _ _ _ hq
      · intro rb' hrb'
        cases hrb'
        exact alookup_upsert_self _ _ _
      · intro hnone
        exact Option.noConfusion hnone

/-- Concrete instantiation of the C6 theorem: with the player's velocity at (3,4),
axis (1,0) and speed 2, the stored velocity becomes (5,4); a non-player entity's
body entry is unchanged. -/
theorem claim_C6_witness :
    alookup (playerControlSystem 1
        { nextId := 3, entities := [1, 2], transforms := [(1, {}), (2, {})], sprites := [],
          bodies := [(1, { vel := ⟨3, 4⟩ }), (2, { vel := ⟨7, 8⟩ })] }
        { axisX := 1, axisY := 0 } 2).bodies 1 =
      some { vel := ⟨3 + 1 * 2, 4 + 0 * 2⟩ } ∧
    alookup (playerControlSystem 1
        { nextId := 3, entities := [1, 2], transforms := [(1, {}), (2, {})], sprites := [],
          bodies := [(1, { vel := ⟨3, 4⟩ }), (2, { vel := ⟨7, 8⟩ })] }
        { axisX := 1, axisY := 0 } 2).bodies 2 = some { vel := ⟨7, 8⟩ } :=
  ⟨(claim_C6 1 _ { axisX := 1, axisY := 0 } 2).2.2.2.2.2.1 { vel := ⟨3, 4⟩ } rfl,
   (claim_C6 1 _ { axisX := 1, axisY := 0 } 2).2.2.2.2.1 2 (by decide)⟩

/-- The claim that no system other than physics writes position or velocity during
the fixed-tick drain is false: the control system, invoked in every drained tick,
adds to the player's velocity whenever the axis is nonzero.  Here the player's
stored velocity changes from (0,0) under control input, and a fixed tick with
input differs from a bare physics tick. -/
theorem claim_C8_counterexample :
    alookup (playerControlSystem 1
        { nextId := 2, entities := [1], transforms := [(1, {})], sprites := [],
          bodies := [(1, { vel := ⟨0, 0⟩ })] }
        { axisX := 1, right := true } ((200 : ℚ) * TARGET_DT)).bodies 1 ≠
      alookup
        { nextId := 2, entities := [1], transforms := [(1, {})], sprites := [],
          bodies := [(1, { vel := ⟨0, 0⟩ })] : EntityManager }.bodies 1 ∧
    alookup (fixedTick 1 { axisX := 1, right := true }
        { nextId := 2, entities := [1], transforms := [(1, {})], sprites := [],
          bodies := [(1, { vel := ⟨0, 0⟩ })] }).bodies 1 ≠
      alookup (physicsSystem
        { nextId := 2, entities := [1], transforms := [(1, {})], sprites := [],
          bodies := [(1, { vel := ⟨0, 0⟩ })] } TARGET_DT).bodies 1 := by
  constructor
  · intro h
    simp [playerControlSystem, alookup, upsert, TARGET_DT] at h
  · intro h
    simp [fixedTick, physicsSystem, physicsStep, playerControlSystem, alookup, upsert,
      TARGET_DT] at h
    norm_num at h

/-- Claim C8, amended: during fixed ticks the physics system is the only writer of
position — the control system touches no Transform — and with zero directional
input the control system changes nothing at all, leaving physics the only writer
of position and velocity. -/
theorem claim_C8 (p : Entity) (em : EntityManager) (inp : InputState) (s : ℚ) :
    (playerControlSystem p em inp s).transforms = em.transforms ∧
    (inp.axisX = 0 → inp.axisY = 0 → playerControlSystem p em inp s = em) := by
  constructor
  · unfold playerControlSystem
    cases h : alookup em.bodies p <;> rfl
  · intro hx hy
    unfold playerControlSystem
    cases h : alookup em.bodies p with
    | none => rfl
    | some rb =>
        have hrb : ({ rb with
            vel := ⟨rb.vel.x + inp.axisX * s, rb.vel.y + inp.axisY * s⟩ } : Rigidbody) = rb := by
          rw [hx, hy]
          simp
        show { em with
            bodies := upsert em.bodies p
              { rb with vel := ⟨rb.vel.x + inp.axisX * s, rb.vel.y + inp.axisY * s⟩ } } = em
        rw [hrb, upsert_self_of_alookup _ _ _ h]

/-- Concrete instantiation of the amended C8 theorem: with both axes zero, a
control invocation at tick speed leaves the store untouched. -/
theorem claim_C8_witness :
    playerControlSystem 1
        { nextId := 2, entities := [1], transforms := [(1, {})], sprites := [],
          bodies := [(1, { vel := ⟨5, 6⟩ })] } {} ((200 : ℚ) * TARGET_DT) =
      { nextId := 2, entities := [1], transforms := [(1, {})], sprites := [],
        bodies := [(1, { vel := ⟨5, 6⟩ })] } :=
  (claim_C8 1 _ {} ((200 : ℚ) * TARGET_DT)).2 rfl rfl

/-- Iterated physics ticks at a fixed timestep. -/
def physicsIter (dt : ℚ) : Nat → EntityManager → EntityManager
  | 0, em => em
  | n + 1, em => physicsIter dt n (physicsSystem em dt)

/-- Squared speed magnitude of a velocity vector. -/
def speed2 (v : Vec2) : ℚ := v.x ^ 2 + v.y ^ 2

theorem physicsSystem_entities (em : EntityManager) (dt : ℚ) :
    (physicsSystem em dt).entities = em.entities :=
  foldl_physicsStep_entities dt em.entities em

theorem physicsIter_alookup (dt : ℚ) (n : Nat) :
    ∀ em : EntityManager, ∀ e : Entity, ∀ rb : Rigidbody, ∀ t : Transform,
      em.entities.Nodup → e ∈ em.entities →
      alookup em.bodies e = some rb → alookup em.transforms e = some t →
      ∃ t' : Transform,
        alookup (physicsIter dt n em).transforms e = some t' ∧
        alookup (physicsIter dt n em).bodies e =
          some { rb with vel := ⟨rb.vel.x * (0.98 : ℚ) ^ n, rb.vel.y * (0.98 : ℚ) ^ n⟩ } ∧
        (physicsIter dt n em).entities = em.entities := by
  induction n with
  | zero =>
      intro em e rb t hnd hmem hb ht
      refine ⟨t, ht, ?_, rfl⟩
      have hrb : ({ rb with
          vel := ⟨rb.vel.x * (0.98 : ℚ) ^ 0, rb.vel.y * (0.98 : ℚ) ^ 0⟩ } : Rigidbody) = rb := by
        simp
      rw [hrb]
      exact hb
  | succ n ih =>
      intro em e rb t hnd hmem hb ht
      obtain ⟨u1, u2⟩ := foldl_physicsStep_mem dt em.entities e em hnd hmem rb t hb ht
      have hent : (physicsSystem em dt).entities = em.entities := physicsSystem_entities em dt
      obtain ⟨t', h1, h2, h3⟩ := ih (physicsSystem em dt) e _ _
        (by rw [hent]; exact hnd) (by rw [hent]; exact hmem) u2 u1
      refine ⟨t', h1, ?_, h3.trans hent⟩
      show alookup (physicsIter dt n (physicsSystem em dt)).bodies e = _
      rw [h2]
      simp only [Option.some.injEq, Rigidbody.mk.injEq, Vec2.mk.injEq]
      exact ⟨⟨by ring, by ring⟩, trivial⟩

theorem speed2_pos_of_ne_zero (v : Vec2) (h : v ≠ ⟨0, 0⟩) : 0 < v.x ^ 2 + v.y ^ 2 := by
  obtain ⟨x, y⟩ := v
  by_contra hle
  push_neg at hle
  have hx2 : x ^ 2 = 0 := le_antisymm (by nlinarith [sq_nonneg y]) (sq_nonneg x)
  have hy2 : y ^ 2 = 0 := le_antisymm (by nlinarith [sq_nonneg x]) (sq_nonneg y)
  have hx : x = 0 := by
    have := (pow_eq_zero_iff (two_ne_zero)).mp hx2
    exact this
  have hy : y = 0 := by
    have := (pow_eq_zero_iff (two_ne_zero)).mp hy2
    exact this
  exact h (by simp [hx, hy])

/-- Claim C10: with zero control input (pure repeated physics ticks), an entity
with a Rigidbody of nonzero velocity has its squared speed strictly decreasing
tick after tick, never increasing, never flipping the sign of either velocity
component, and eventually dropping below any positive bound. -/
theorem claim_C10 (em : EntityManager) (dt : ℚ) (e : Entity) (rb : Rigidbody)
    (t : Transform)
    (hnd : em.entities.Nodup) (hmem : e ∈ em.entities)
    (hb : alookup em.bodies e = some rb)
    (ht : alookup em.transforms e = some t)
    (hvz : rb.vel ≠ ⟨0, 0⟩) :
    ∃ f : Nat → Vec2,
      (∀ n, alookup (physicsIter dt n em).bodies e = some { rb with vel := f n }) ∧
      f 0 = rb.vel ∧
      (∀ n, speed2 (f (n + 1)) < speed2 (f n)) ∧
      (∀ n, (0 ≤ (f n).x ↔ 0 ≤ rb.vel.x) ∧ ((f n).x ≤ 0 ↔ rb.vel.x ≤ 0) ∧
            (0 ≤ (f n).y ↔ 0 ≤ rb.vel.y) ∧ ((f n).y ≤ 0 ↔ rb.vel.y ≤ 0)) ∧
      (∀ ε : ℚ, 0 < ε → ∃ n, speed2 (f n) < ε) := by
  refine ⟨fun n => ⟨rb.vel.x * (0.98 : ℚ) ^ n, rb.vel.y * (0.98 : ℚ) ^ n⟩, ?_, ?_, ?_, ?_, ?_⟩
  · intro n
    obtain ⟨t', _, h2, _⟩ := physicsIter_alookup dt n em e rb t hnd hmem hb ht
    exact h2
  · simp
  · intro n
    have hq : (0 : ℚ) < 0.98 := by norm_num
    have hqn : (0 : ℚ) < (0.98 : ℚ) ^ n := pow_pos hq n
    have hS : 0 < rb.vel.x ^ 2 + rb.vel.y ^ 2 := speed2_pos_of_ne_zero rb.vel hvz
    have hrw : ∀ m : Nat, speed2 ⟨rb.vel.x * (0.98 : ℚ) ^ m, rb.vel.y * (0.98 : ℚ) ^ m⟩ =
        (rb.vel.x ^ 2 + rb.vel.y ^ 2) * ((0.98 : ℚ) ^ 2) ^ m := by
      intro m
      simp only [speed2]
      rw [← pow_right_comm]
      ring
    rw [hrw n, hrw (n + 1),
      show ((0.98 : ℚ) ^ 2) ^ (n + 1) = ((0.98 : ℚ) ^ 2) ^ n * (0.98 : ℚ) ^ 2 from
        pow_succ _ n]
    have hbase : 0 < (rb.vel.x ^ 2 + rb.vel.y ^ 2) * ((0.98 : ℚ) ^ 2) ^ n :=
      mul_pos hS (pow_pos (by norm_num) n)
    calc (rb.vel.x ^ 2 + rb.vel.y ^ 2) * (((0.98 : ℚ) ^ 2) ^ n * (0.98 : ℚ) ^ 2)
        = ((rb.vel.x ^ 2 + rb.vel.y ^ 2) * ((0.98 : ℚ) ^ 2) ^ n) * (0.98 : ℚ) ^ 2 := by ring
      _ < (rb.vel.x ^ 2 + rb.vel.y ^ 2) * ((0.98 : ℚ) ^ 2) ^ n :=
          mul_lt_of_lt_one_right hbase (by norm_num)
  · intro n
    have hqn : (0 : ℚ) < (0.98 : ℚ) ^ n := pow_pos (by norm_num) n
    refine ⟨mul_nonneg_iff_of_pos_right hqn, ?_, mul_nonneg_iff_of_pos_right hqn, ?_⟩
    · constructor
      · intro h
        nlinarith
      · intro h
        nlinarith
    · constructor
      · intro h
        nlinarith
      · intro h
        nlinarith
  · intro ε hε
    have hS : 0 < rb.vel.x ^ 2 + rb.vel.y ^ 2 := speed2_pos_of_ne_zero rb.vel hvz
    obtain ⟨n, hn⟩ := exists_pow_lt_of_lt_one
      (x := ε / (rb.vel.x ^ 2 + rb.vel.y ^ 2)) (y := (0.98 : ℚ) ^ 2)
      (div_pos hε hS) (by norm_num)
    refine ⟨n, ?_⟩
    have hrw : speed2 ⟨rb.vel.x * (0.98 : ℚ) ^ n, rb.vel.y * (0.98 : ℚ) ^ n⟩ =
        (rb.vel.x ^ 2 + rb.vel.y ^ 2) * ((0.98 : ℚ) ^ 2) ^ n := by
      simp only [speed2]
      rw [← pow_right_comm]
      ring
    rw [hrw]
    have := mul_lt_mul_of_pos_left hn hS
    rwa [mul_div_cancel₀ _ (ne_of_gt hS)] at this

/-- Concrete instantiation of the C10 theorem at the one-entity store with
velocity (100,0). -/
theorem claim_C10_witness :
    ∃ f : Nat → Vec2,
      (∀ n, alookup (physicsIter (1 / 60) n emMoving).bodies 1 =
        some { vel := f n, mass := 1 }) ∧
      f 0 = ⟨100, 0⟩ ∧
      (∀ n, speed2 (f (n + 1)) < speed2 (f n)) ∧
      (∀ n, (0 ≤ (f n).x ↔ (0 : ℚ) ≤ 100) ∧ ((f n).x ≤ 0 ↔ (100 : ℚ) ≤ 0) ∧
            (0 ≤ (f n).y ↔ (0 : ℚ) ≤ 0) ∧ ((f n).y ≤ 0 ↔ (0 : ℚ) ≤ 0)) ∧
      (∀ ε : ℚ, 0 < ε → ∃ n, speed2 (f n) < ε) :=
  claim_C10 emMoving (1 / 60) 1 { vel := ⟨100, 0⟩ } {} (by decide) (by decide)
    rfl rfl (by decide)

theorem applyEvent_axisX (s : InputState) (e : Event) : (applyEvent s e).axisX = s.axisX := by
  cases e with
  | quitEvent => rfl
  | keyDown k => cases k <;> rfl
  | keyUp k => cases k <;> rfl
  | other => rfl

theorem applyEvent_axisY (s : InputState) (e : Event) : (applyEvent s e).axisY = s.axisY := by
  cases e with
  | quitEvent => rfl
  | keyDown k => cases k <;> rfl
  | keyUp k => cases k <;> rfl
  | other => rfl

theorem foldl_applyEvent_axisX (events : List Event) :
    ∀ s : InputState, (events.foldl applyEvent s).axisX = s.axisX := by
  induction events with
  | nil => intro s; rfl
  | cons e l ih => intro s; rw [List.foldl_cons, ih, applyEvent_axisX]

theorem foldl_applyEvent_axisY (events : List Event) :
    ∀ s : InputState, (events.foldl applyEvent s).axisY = s.axisY := by
  induction events with
  | nil => intro s; rfl
  | cons e l ih => intro s; rw [List.foldl_cons, ih, applyEvent_axisY]

/-- Closed form of `processInput`: fold the events over the reset snapshot, then
each axis is determined by the final directional flags alone. -/
theorem processInput_eq (s : InputState) (events : List Event) :
    processInput s events =
      { events.foldl applyEvent (resetFlags s) with
        axisX :=
          (if (events.foldl applyEvent (resetFlags s)).right then (1 : ℚ) else 0) +
          (if (events.foldl applyEvent (resetFlags s)).left then (-1 : ℚ) else 0)
        axisY :=
          (if (events.foldl applyEvent (resetFlags s)).down then (1 : ℚ) else 0) +
          (if (events.foldl applyEvent (resetFlags s)).up then (-1 : ℚ) else 0) } := by
  simp only [processInput]
  set s1 := events.foldl applyEvent (resetFlags s) with hs1
  have hx : s1.axisX = 0 := by
    rw [hs1, foldl_applyEvent_axisX]
    rfl
  have hy : s1.axisY = 0 := by
    rw [hs1, foldl_applyEvent_axisY]
    rfl
  clear_value s1
  obtain ⟨q, ax, ay, l, r, u, d⟩ := s1
  dsimp only at hx hy
  subst hx
  subst hy
  cases l <;> cases r <;> cases u <;> cases d <;> simp

/-- Claim C5: after every poll, axisX is (+1 if right) + (−1 if left) and axisY is
(+1 if down) + (−1 if up); simultaneous opposite directions cancel to zero, and
each axis component lies in the set of -1, 0, 1. -/
theorem claim_C5 (s : InputState) (events : List Event) :
    ((processInput s events).axisX =
      (if (processInput s events).right then (1 : ℚ) else 0) +
      (if (processInput s events).left then (-1 : ℚ) else 0)) ∧
    ((processInput s events).axisY =
      (if (processInput s events).down then (1 : ℚ) else 0) +
      (if (processInput s events).up then (-1 : ℚ) else 0)) ∧
    ((processInput s events).left = true → (processInput s events).right = true →
      (processInput s events).axisX = 0) ∧
    ((processInput s events).up = true → (processInput s events).down = true →
      (processInput s events).axisY = 0) ∧
    ((processInput s events).axisX = -1 ∨ (processInput s events).axisX = 0 ∨
      (processInput s events).axisX = 1) ∧
    ((processInput s events).axisY = -1 ∨ (processInput s events).axisY = 0 ∨
      (processInput s events).axisY = 1) := by
  rw [processInput_eq]
  set s1 := events.foldl applyEvent (resetFlags s) with hs1
  cases hl : s1.left <;> cases hr : s1.right <;> cases hu : s1.up <;> cases hd : s1.down <;>
    norm_num

/-- Concrete instantiation of the C5 theorem: holding both the left and the right
key at once cancels to axisX = 0, which lies inside the allowed axis set. -/
theorem claim_C5_witness :
    (processInput {} [Event.keyDown Key.a, Event.keyDown Key.d]).axisX = 0 ∧
    ((processInput {} [Event.keyDown Key.a, Event.keyDown Key.d]).axisX = -1 ∨
     (processInput {} [Event.keyDown Key.a, Event.keyDown Key.d]).axisX = 0 ∨
     (processInput {} [Event.keyDown Key.a, Event.keyDown Key.d]).axisX = 1) :=
  ⟨(claim_C5 {} [Event.keyDown Key.a, Event.keyDown Key.d]).2.2.1 rfl rfl,
   (claim_C5 {} [Event.keyDown Key.a, Event.keyDown Key.d]).2.2.2.2.1⟩

/-- The claim that the whole snapshot is recomputed from scratch each poll is false
for the quit flag: two polls that both receive no events, starting from prior
snapshots that differ only in quit, end with different quit values (and hence
different snapshots). -/
theorem claim_C9_counterexample :
    (processInput { quit := true } []).quit ≠ (processInput { quit := false } []).quit ∧
    processInput { quit := true } [] ≠ processInput { quit := false } [] := by
  decide

def EqExceptQuit (s t : InputState) : Prop :=
  s.axisX = t.axisX ∧ s.axisY = t.axisY ∧ s.left = t.left ∧ s.right = t.right ∧
  s.up = t.up ∧ s.down = t.down

theorem applyEvent_eqExceptQuit (s t : InputState) (e : Event) (h : EqExceptQuit s t) :
    EqExceptQuit (applyEvent s e) (applyEvent t e) := by
  obtain ⟨h1, h2, h3, h4, h5, h6⟩ := h
  cases e with
  | quitEvent => exact ⟨h1, h2, h3, h4, h5, h6⟩
  | keyDown k => cases k <;> simp_all [applyEvent, EqExceptQuit]
  | keyUp k => cases k <;> simp_all [applyEvent, EqExceptQuit]
  | other => exact ⟨h1, h2, h3, h4, h5, h6⟩

theorem foldl_applyEvent_eqExceptQuit (events : List Event) :
    ∀ s t : InputState, EqExceptQuit s t →
      EqExceptQuit (events.foldl applyEvent s) (events.foldl applyEvent t) := by
  induction events with
  | nil => intro s t h; exact h
  | cons e l ih =>
      intro s t h
      rw [List.foldl_cons, List.foldl_cons]
      exact ih _ _ (applyEvent_eqExceptQuit s t e h)

theorem applyEvent_quit_mono (s : InputState) (e : Event) (h : s.quit = true) :
    (applyEvent s e).quit = true := by
  cases e with
  | quitEvent => rfl
  | keyDown k => cases k <;> simp_all [applyEvent]
  | keyUp k => cases k <;> simp_all [applyEvent]
  | other => exact h

theorem foldl_applyEvent_quit_mono (events : List Event) :
    ∀ s : InputState, s.quit = true → (events.foldl applyEvent s).quit = true := by
  induction events with
  | nil => intro s h; exact h
  | cons e l ih =>
      intro s h
      rw [List.foldl_cons]
      exact ih _ (applyEvent_quit_mono s e h)

/-- Claim C9, amended: every snapshot field except quit depends only on the events
delivered during the poll — two polls receiving the same events agree on left,
right, up, down, axisX and axisY whatever the prior snapshots were, and agree
entirely when the prior quit flags agree.  The quit flag is the one memory the
snapshot keeps: it is never reset, so a prior true value persists through any
poll. -/
theorem claim_C9 (s1 s2 : InputState) (events : List Event) :
    ((processInput s1 events).left = (processInput s2 events).left ∧
     (processInput s1 events).right = (processInput s2 events).right ∧
     (processInput s1 events).up = (processInput s2 events).up ∧
     (processInput s1 events).down = (processInput s2 events).down ∧
     (processInput s1 events).axisX = (processInput s2 events).axisX ∧
     (processInput s1 events).axisY = (processInput s2 events).axisY) ∧
    (s1.quit = s2.quit → processInput s1 events = processInput s2 events) ∧
    (s1.quit = true → (processInput s1 events).quit = true) := by
  have hbase : EqExceptQuit (resetFlags s1) (resetFlags s2) :=
    ⟨rfl, rfl, rfl, rfl, rfl, rfl⟩
  obtain ⟨e1, e2, e3, e4, e5, e6⟩ :=
    foldl_applyEvent_eqExceptQuit events _ _ hbase
  refine ⟨?_, ?_, ?_⟩
  · rw [processInput_eq s1 events, processInput_eq s2 events]
    exact ⟨e3, e4, e5, e6, by rw [e3, e4], by rw [e5, e6]⟩
  · intro hq
    have hreset : resetFlags s1 = resetFlags s2 := by
      cases s1; cases s2
      simp_all [resetFlags]
    unfold processInput
    rw [hreset]
  · intro hq
    rw [processInput_eq s1 events]
    have : (resetFlags s1).quit = true := hq
    exact foldl_applyEvent_quit_mono events _ this

/-- Concrete instantiation of the amended C9 theorem: prior snapshots with equal
quit flags poll to identical snapshots, and a prior quit persists through an
eventless poll. -/
theorem claim_C9_witness :
    processInput { left := true, axisX := -1 } [Event.keyDown Key.d] =
      processInput { down := true, axisY := 1 } [Event.keyDown Key.d] ∧
    (processInput { quit := true } []).quit = true :=
  ⟨(claim_C9 { left := true, axisX := -1 } { down := true, axisY := 1 }
      [Event.keyDown Key.d]).2.1 rfl,
   (claim_C9 { quit := true } {} []).2.2 rfl⟩

/-- Per-entity draw required by the render contract: an entity qualifies when it
has both a Transform and a Sprite whose texture handle is non-null; the draw uses
destination width/height = intrinsic size * scale (truncated to int), top-left =
position − (destWidth/2, destHeight/2) rounded to the nearest integer pixel (the
halving of the integer width is integer division), the transform's rotation in
degrees, and no flip. -/
def specifiedDraw (em : EntityManager) (e : Entity) : Option DrawCall :=
  match alookup em.transforms e, alookup em.sprites e with
  | some tr, some sp =>
    match sp.tex with
    | some tex =>
      some ⟨tex,
        ⟨cround (tr.pos.x - ((Int.tdiv (ctrunc ((sp.w : ℚ) * tr.scale.x)) 2 : Int) : ℚ)),
         cround (tr.pos.y - ((Int.tdiv (ctrunc ((sp.h : ℚ) * tr.scale.y)) 2 : Int) : ℚ)),
         ctrunc ((sp.w : ℚ) * tr.scale.x),
         ctrunc ((sp.h : ℚ) * tr.scale.y)⟩,
        tr.rot, false⟩
    | none => none
  | _, _ => none

/-- Whether the render traversal draws an entity: it must hold both a Transform
and a Sprite, and the sprite's texture handle must be non-null. -/
def hasVisual (em : EntityManager) (e : Entity) : Bool :=
  containsKey em.transforms e && containsKey em.sprites e &&
    (alookup em.sprites e).elim false (fun sp => sp.tex.isSome)

theorem renderLoop_eq_filterMap (em : EntityManager) (l : List Entity) :
    renderLoop em l = l.filterMap (specifiedDraw em) := by
  induction l with
  | nil => rfl
  | cons e rest ih =>
      cases hsp : alookup em.sprites e with
      | none =>
          cases htr : alookup em.transforms e <;>
            simp [renderLoop, specifiedDraw, List.filterMap_cons, hsp, htr, ih]
      | some sp =>
          cases htr : alookup em.transforms e with
          | none => simp [renderLoop, specifiedDraw, List.filterMap_cons, hsp, htr, ih]
          | some tr =>
              cases htex : sp.tex <;>
                simp [renderLoop, specifiedDraw, List.filterMap_cons, hsp, htr, htex, ih]

theorem filterMap_specifiedDraw_length (em : EntityManager) (l : List Entity) :
    (l.filterMap (specifiedDraw em)).length = (l.filter (hasVisual em)).length := by
  induction l with
  | nil => rfl
  | cons e rest ih =>
      cases hsp : alookup em.sprites e with
      | none =>
          cases htr : alookup em.transforms e <;>
            simp [specifiedDraw, hasVisual, containsKey, List.filterMap_cons,
              List.filter_cons, hsp, htr, ih]
      | some sp =>
          cases htr : alookup em.transforms e with
          | none =>
              simp [specifiedDraw, hasVisual, containsKey, List.filterMap_cons,
                List.filter_cons, hsp, htr, ih]
          | some tr =>
              cases htex : sp.tex <;>
                simp [specifiedDraw, hasVisual, containsKey, List.filterMap_cons,
                  List.filter_cons, hsp, htr, htex, ih]

/-- The render scenario store: one entity at position (400,300), scale (1,1),
sprite of intrinsic size 64x64 with texture handle 7, rotation 0. -/
def emScene : EntityManager where
  nextId := 2
  entities := [1]
  transforms := [(1, { pos := ⟨400, 300⟩, rot := 0, scale := ⟨1, 1⟩ })]
  sprites := [(1, { tex := some 7, w := 64, h := 64 })]
  bodies := []

/-- Claim C3: the draws of a render invocation are exactly one per live entity
holding both a Transform and a Sprite with non-null texture, in live-list order,
each with rectangle size = intrinsic size * scale and top-left = position minus
half the destination size, rounded to the nearest pixel, rotated by the
transform's rotation, unflipped; entities failing the guard produce no draw.  In
particular position (400,300), scale (1,1), size 64x64, rotation 0 yields exactly
the rectangle x=368, y=268, w=64, h=64. -/
theorem claim_C3 (em : EntityManager) :
    renderSystem em = em.entities.filterMap (specifiedDraw em) ∧
    (renderSystem em).length = (em.entities.filter (hasVisual em)).length ∧
    renderSystem emScene = [⟨7, ⟨368, 268, 64, 64⟩, 0, false⟩] := by
  refine ⟨renderLoop_eq_filterMap em em.entities, ?_, ?_⟩
  · rw [renderSystem, renderLoop_eq_filterMap em em.entities]
    exact filterMap_specifiedDraw_length em em.entities
  · have h1 : ctrunc ((64 : ℚ)) = 64 := by
      norm_num [ctrunc]
    have h2 : Int.tdiv 64 2 = 32 := by decide
    simp only [renderSystem, emScene, renderLoop, alookup]
    norm_num [h1, h2, cround]

/-- Trace of n fixed ticks: control then physics, n times over. -/
def tickTrace : Nat → List SysCall
  | 0 => []
  | n + 1 => SysCall.control :: SysCall.physics :: tickTrace n

theorem tickTrace_count_render (n : Nat) : (tickTrace n).count SysCall.render = 0 := by
  induction n with
  | zero => rfl
  | succ n ih => simp [tickTrace, List.count_cons, ih]

theorem tickTrace_count_pollInput (n : Nat) : (tickTrace n).count SysCall.pollInput = 0 := by
  induction n with
  | zero => rfl
  | succ n ih => simp [tickTrace, List.count_cons, ih]

theorem ticks_of_lt (acc : ℚ) (h : ¬ TARGET_DT ≤ acc) : (⌊acc / TARGET_DT⌋).toNat = 0 := by
  have hdt : (0 : ℚ) < TARGET_DT := by norm_num [TARGET_DT]
  have h1 : acc / TARGET_DT < 1 := (div_lt_one hdt).mpr (lt_of_not_le h)
  have h2 : ⌊acc / TARGET_DT⌋ < 1 := Int.floor_lt.mpr (by exact_mod_cast h1)
  omega

theorem ticks_of_ge (acc : ℚ) (h : TARGET_DT ≤ acc) :
    (⌊acc / TARGET_DT⌋).toNat = (⌊(acc - TARGET_DT) / TARGET_DT⌋).toNat + 1 := by
  have hdt : (0 : ℚ) < TARGET_DT := by norm_num [TARGET_DT]
  have h1 : (acc - TARGET_DT) / TARGET_DT = acc / TARGET_DT - 1 := by
    field_simp
  have h2 : (1 : ℚ) ≤ acc / TARGET_DT := (one_le_div hdt).mpr h
  have h3 : (1 : ℤ) ≤ ⌊acc / TARGET_DT⌋ := Int.le_floor.mpr (by exact_mod_cast h2)
  have h4 : ⌊(acc - TARGET_DT) / TARGET_DT⌋ = ⌊acc / TARGET_DT⌋ - 1 := by
    rw [h1]
    exact_mod_cast Int.floor_sub_int (acc / TARGET_DT) 1
  omega

theorem drain_spec (player : Entity) (inp : InputState) :
    ∀ n : Nat, ∀ em : EntityManager, ∀ acc : ℚ, (⌊acc / TARGET_DT⌋).toNat = n →
      drain player inp em acc =
        ((fixedTick player inp)^[n] em, acc - n * TARGET_DT, tickTrace n) := by
  intro n
  induction n with
  | zero =>
      intro em acc hn
      have hlt : ¬ TARGET_DT ≤ acc := by
        intro hge
        rw [ticks_of_ge acc hge] at hn
        omega
      rw [drain]
      simp [hlt, tickTrace]
  | succ n ih =>
      intro em acc hn
      have hge : TARGET_DT ≤ acc := by
        by_contra hlt
        rw [ticks_of_lt acc hlt] at hn
        omega
      have hn' : (⌊(acc - TARGET_DT) / TARGET_DT⌋).toNat = n := by
        rw [ticks_of_ge acc hge] at hn
        omega
      rw [drain]
      simp only [hge, dite_true, dif_pos]
      rw [ih _ _ hn']
      simp only [Prod.mk.injEq]
      refine ⟨?_, ?_, rfl⟩
      · rw [Function.iterate_succ_apply]
        rfl
      · push_cast
        ring

/-- Claim C2: one outer iteration adds the measured elapsed time to the
accumulator, polls input once, then while the accumulator is at least 1/60 runs
control then physics and subtracts 1/60, and finally renders exactly once
regardless of how many ticks were drained.  Starting from accumulator 0 with
elapsed 1/30, exactly 2 fixed ticks are drained, the final accumulator is
exactly 0, and render appears exactly once in the trace. -/
theorem claim_C2 (player : Entity) (elapsed : ℚ) (events : List Event) (st : LoopState)
    (n : Nat) (hn : n = (⌊(st.accumulator + elapsed) / TARGET_DT⌋).toNat) :
    outerIteration player elapsed events st =
      (⟨(fixedTick player (processInput st.input events))^[n] st.em,
        processInput st.input events,
        st.accumulator + elapsed - n * TARGET_DT⟩,
       SysCall.pollInput :: tickTrace n ++ [SysCall.render]) ∧
    (SysCall.pollInput :: tickTrace n ++ [SysCall.render]).count SysCall.render = 1 ∧
    (SysCall.pollInput :: tickTrace n ++ [SysCall.render]).count SysCall.pollInput = 1 ∧
    (st.accumulator = 0 → elapsed = 1 / 30 → n = 2 ∧
      st.accumulator + elapsed - n * TARGET_DT = 0) := by
  refine ⟨?_, ?_, ?_, ?_⟩
  · have hd := drain_spec player (processInput st.input events) n st.em
      (st.accumulator + elapsed) hn.symm
    simp only [outerIteration]
    rw [hd]
  · simp [List.count_cons, List.count_append, tickTrace_count_render]
  · simp [List.count_cons, List.count_append, tickTrace_count_pollInput]
  · intro h0 h30
    have hn2 : n = 2 := by
      rw [hn, h0, h30]
      norm_num [TARGET_DT]
      decide
    refine ⟨hn2, ?_⟩
    rw [h0, h30, hn2]
    norm_num [TARGET_DT]

/-- Concrete instantiation of the C2 theorem: accumulator 0, elapsed 1/30, no
events — two ticks drain, the accumulator returns to zero, and the trace is
poll, control, physics, control, physics, render. -/
theorem claim_C2_witness :
    outerIteration 1 (1 / 30) [] ⟨{}, {}, 0⟩ =
      (⟨(fixedTick 1 (processInput {} []))^[2] {}, processInput {} [],
        (0 : ℚ) + 1 / 30 - ((2 : ℕ) : ℚ) * TARGET_DT⟩,
       SysCall.pollInput :: tickTrace 2 ++ [SysCall.render]) ∧
    (SysCall.pollInput :: tickTrace 2 ++ [SysCall.render]).count SysCall.render = 1 ∧
    (SysCall.pollInput :: tickTrace 2 ++ [SysCall.render]).count SysCall.pollInput = 1 ∧
    (0 : ℚ) + 1 / 30 - ((2 : ℕ) : ℚ) * TARGET_DT = 0 :=
  have h := claim_C2 1 (1 / 30) [] ⟨{}, {}, 0⟩ 2 (by norm_num [TARGET_DT]; decide)
  ⟨h.1, h.2.1, h.2.2.1, (h.2.2.2 rfl rfl).2⟩

theorem playerControlSystem_none (p : Entity) (em : EntityManager) (inp : InputState)
    (s : ℚ) (h : alookup em.bodies p = none) : playerControlSystem p em inp s = em := by
  unfold playerControlSystem
  rw [h]

theorem playerControlSystem_some (p : Entity) (em : EntityManager) (inp : InputState)
    (s : ℚ) (rb : Rigidbody) (h : alookup em.bodies p = some rb) :
    playerControlSystem p em inp s =
      { em with
        bodies := upsert em.bodies p
          { rb with vel := ⟨rb.vel.x + inp.axisX * s, rb.vel.y + inp.axisY * s⟩ } } := by
  unfold playerControlSystem
  rw [h]

theorem playerControlSystem_nextId (p : Entity) (em : EntityManager) (inp : InputState)
    (s : ℚ) : (playerControlSystem p em inp s).nextId = em.nextId := by
  unfold playerControlSystem
  cases h : alookup em.bodies p <;> rfl

theorem playerControlSystem_entities (p : Entity) (em : EntityManager) (inp : InputState)
    (s : ℚ) : (playerControlSystem p em inp s).entities = em.entities := by
  unfold playerControlSystem
  cases h : alookup em.bodies p <;> rfl

theorem foldl_physicsStep_nextId (dt : ℚ) (l : List Entity) :
    ∀ em : EntityManager, (l.foldl (physicsStep dt) em).nextId = em.nextId := by
  induction l with
  | nil => intro em; rfl
  | cons a l ih => intro em; rw [List.foldl_cons, ih, physicsStep_nextId]

/-- Core operations on the entity store paired with the log of identifiers issued
since the last reset: creation logs the identifier it returns, a bulk reset clears
the log, and the remaining operations do not issue identifiers. -/
inductive Issues : EntityManager → List Entity → Prop
  | init : Issues {} []
  | create {em : EntityManager} {log : List Entity} :
      Issues em log → Issues (em.create).2 (log ++ [(em.create).1])
  | reset {em : EntityManager} {log : List Entity} :
      Issues em log → Issues em.destroyAll []
  | attachSprite {em : EntityManager} {log : List Entity} (e : Entity) (sp : Sprite) :
      e ∈ em.entities → Issues em log →
      Issues { em with sprites := upsert em.sprites e sp } log
  | attachBody {em : EntityManager} {log : List Entity} (e : Entity) (rb : Rigidbody) :
      e ∈ em.entities → Issues em log →
      Issues { em with bodies := upsert em.bodies e rb } log
  | setTransform {em : EntityManager} {log : List Entity} (e : Entity) (t : Transform) :
      e ∈ em.entities → Issues em log →
      Issues { em with transforms := upsert em.transforms e t } log
  | control {em : EntityManager} {log : List Entity} (p : Entity) (inp : InputState)
      (s : ℚ) : Issues em log → Issues (playerControlSystem p em inp s) log
  | physics {em : EntityManager} {log : List Entity} (dt : ℚ) :
      Issues em log → Issues (physicsSystem em dt) log

theorem issues_spec {em : EntityManager} {log : List Entity} (h : Issues em log) :
    em.nextId = 1 + log.length ∧
    log = (List.range log.length).map (fun k : Nat => (1 : Int) + (k : Int)) := by
  induction h with
  | init => simp
  | @create em log h ih =>
      obtain ⟨h1, h2⟩ := ih
      constructor
      · show em.nextId + 1 = 1 + ((log ++ [(em.create).1]).length : Int)
        rw [List.length_append, List.length_singleton, h1]
        push_cast
        ring
      · show log ++ [em.nextId] = _
        rw [List.length_append, List.length_singleton, List.range_succ, List.map_append]
        refine congrArg₂ _ h2 ?_
        simp [h1]
  | reset h ih => simp [EntityManager.destroyAll]
  | attachSprite e sp hmem h ih => exact ih
  | attachBody e rb hmem h ih => exact ih
  | setTransform e t hmem h ih => exact ih
  | @control em log p inp s h ih =>
      rw [playerControlSystem_nextId]
      exact ih
  | @physics em log dt h ih =>
      show (physicsSystem em dt).nextId = _ ∧ _
      rw [physicsSystem, foldl_physicsStep_nextId]
      exact ih

/-- Claim C4: create returns exactly the allocation counter — an identifier never
issued since the last reset, the issued log being 1, 2, 3, ... with no duplicates
— appends it to the live list and installs the default Transform for it; the bulk
reset clears the live list and every component table and restarts allocation at 1. -/
theorem claim_C4 (em : EntityManager) (log : List Entity) (h : Issues em log) :
    (em.create).1 = em.nextId ∧
    (em.create).2.nextId = em.nextId + 1 ∧
    em.nextId = 1 + log.length ∧
    log = (List.range log.length).map (fun k : Nat => (1 : Int) + (k : Int)) ∧
    log.Nodup ∧
    (em.create).1 ∉ log ∧
    (em.create).2.entities = em.entities ++ [(em.create).1] ∧
    alookup (em.create).2.transforms (em.create).1 =
      some { pos := ⟨0, 0⟩, rot := 0, scale := ⟨1, 1⟩ } ∧
    em.destroyAll = {} := by
  obtain ⟨h1, h2⟩ := issues_spec h
  refine ⟨rfl, rfl, h1, h2, ?_, ?_, rfl, ?_, rfl⟩
  · rw [h2]
    refine List.Nodup.map ?_ (List.nodup_range _)
    intro a b hab
    have h' : (1 : Int) + (a : Int) = 1 + (b : Int) := hab
    omega
  · rw [h2]
    intro hmem
    simp only [List.mem_map, List.mem_range] at hmem
    obtain ⟨k, hk, hkeq⟩ := hmem
    have : (1 : Int) + k = em.nextId := hkeq
    rw [h1] at this
    omega
  · exact alookup_upsert_self _ _ _

/-- Concrete instantiation of the C4 theorem after one create from a fresh
registry: the next create returns 2, which was not previously issued, and the id
counter equals one plus the number of issued ids. -/
theorem claim_C4_witness :
    ((EntityManager.create {}).2.create).1 ∉ [(1 : Entity)] ∧
    (EntityManager.create {}).2.nextId = 1 + ([(1 : Entity)].length : Int) :=
  ⟨(claim_C4 _ _ (Issues.create Issues.init)).2.2.2.2.2.1,
   (claim_C4 _ _ (Issues.create Issues.init)).2.2.1⟩

/-- One core operation on the entity store: entity creation, bulk reset, component
attachment to a live entity (as done for the player and the static objects in
`main`), a control invocation, a physics tick, or a render pass (which never
modifies the store). -/
inductive Step : EntityManager → EntityManager → Prop
  | create (em : EntityManager) : Step em (em.create).2
  | reset (em : EntityManager) : Step em em.destroyAll
  | attachSprite (em : EntityManager) (e : Entity) (sp : Sprite) :
      e ∈ em.entities → Step em { em with sprites := upsert em.sprites e sp }
  | attachBody (em : EntityManager) (e : Entity) (rb : Rigidbody) :
      e ∈ em.entities → Step em { em with bodies := upsert em.bodies e rb }
  | setTransform (em : EntityManager) (e : Entity) (t : Transform) :
      e ∈ em.entities → Step em { em with transforms := upsert em.transforms e t }
  | control (em : EntityManager) (p : Entity) (inp : InputState) (s : ℚ) :
      Step em (playerControlSystem p em inp s)
  | physics (em : EntityManager) (dt : ℚ) : Step em (physicsSystem em dt)
  | render (em : EntityManager) : Step em em

/-- Entity stores reachable from a freshly constructed registry through the core's
operations. -/
inductive Reachable : EntityManager → Prop
  | init : Reachable {}
  | step {em em' : EntityManager} : Reachable em → Step em em' → Reachable em'

/-- Well-formedness of the store: component tables bind only live identifiers,
every live identifier has exactly one Transform binding, live identifiers sit
below the allocation counter, and the live list has no duplicates. -/
def WF (em : EntityManager) : Prop :=
  (∀ e, countKey em.transforms e ≠ 0 → e ∈ em.entities) ∧
  (∀ e, countKey em.sprites e ≠ 0 → e ∈ em.entities) ∧
  (∀ e, countKey em.bodies e ≠ 0 → e ∈ em.entities) ∧
  (∀ e ∈ em.entities, countKey em.transforms e = 1) ∧
  (∀ e ∈ em.entities, e < em.nextId) ∧
  em.entities.Nodup

theorem wf_init : WF {} := by
  refine ⟨?_, ?_, ?_, ?_, ?_, ?_⟩ <;> simp [countKey]

theorem wf_create (em : EntityManager) (h : WF em) : WF (em.create).2 := by
  obtain ⟨w1, w2, w3, w4, w5, w6⟩ := h
  have hfresh : em.nextId ∉ em.entities := fun hmem => absurd (w5 _ hmem) (lt_irrefl _)
  have htz : countKey em.transforms em.nextId = 0 := by
    by_contra hne
    exact hfresh (w1 _ hne)
  show WF { em with
    nextId := em.nextId + 1
    entities := em.entities ++ [em.nextId]
    transforms := upsert em.transforms em.nextId {} }
  dsimp only [WF]
  refine ⟨?_, ?_, ?_, ?_, ?_, ?_⟩
  · intro e he
    rcases countKey_pos_of_mem_upsert _ _ _ _ he with he' | he'
    · subst he'
      exact List.mem_append_right _ (List.mem_singleton_self _)
    · exact List.mem_append_left _ (w1 _ he')
  · intro e he
    exact List.mem_append_left _ (w2 _ he)
  · intro e he
    exact List.mem_append_left _ (w3 _ he)
  · intro e he
    rcases List.mem_append.mp he with he' | he'
    · have hne : e ≠ em.nextId := fun hh => absurd (hh ▸ w5 _ he') (lt_irrefl _)
      rw [countKey_upsert_ne _ _ _ _ hne]
      exact w4 _ he'
    · rw [List.mem_singleton.mp he']
      exact countKey_upsert_self_zero _ _ _ htz
  · intro e he
    rcases List.mem_append.mp he with he' | he'
    · exact lt_trans (w5 _ he') (lt_add_one em.nextId)
    · rw [List.mem_singleton.mp he']
      exact lt_add_one em.nextId
  · rw [List.nodup_append]
    refine ⟨w6, List.nodup_singleton _, ?_⟩
    intro a ha hb
    rw [List.mem_singleton.mp hb] at ha
    exact hfresh ha

theorem wf_reset (em : EntityManager) : WF em.destroyAll := wf_init

theorem wf_attachSprite (em : EntityManager) (e : Entity) (sp : Sprite)
    (hmem : e ∈ em.entities) (h : WF em) :
    WF { em with sprites := upsert em.sprites e sp } := by
  obtain ⟨w1, w2, w3, w4, w5, w6⟩ := h
  refine ⟨w1, ?_, w3, w4, w5, w6⟩
  intro e' he'
  rcases countKey_pos_of_mem_upsert _ _ _ _ he' with he'' | he''
  · exact he'' ▸ hmem
  · exact w2 _ he''

theorem wf_attachBody (em : EntityManager) (e : Entity) (rb : Rigidbody)
    (hmem : e ∈ em.entities) (h : WF em) :
    WF { em with bodies := upsert em.bodies e rb } := by
  obtain ⟨w1, w2, w3, w4, w5, w6⟩ := h
  refine ⟨w1, w2, ?_, w4, w5, w6⟩
  intro e' he'
  rcases countKey_pos_of_mem_upsert _ _ _ _ he' with he'' | he''
  · exact he'' ▸ hmem
  · exact w3 _ he''

theorem wf_setTransform (em : EntityManager) (e : Entity) (t : Transform)
    (hmem : e ∈ em.entities) (h : WF em) :
    WF { em with transforms := upsert em.transforms e t } := by
  obtain ⟨w1, w2, w3, w4, w5, w6⟩ := h
  refine ⟨?_, w2, w3, ?_, w5, w6⟩
  · intro e' he'
    rcases countKey_pos_of_mem_upsert _ _ _ _ he' with he'' | he''
    · exact he'' ▸ hmem
    · exact w1 _ he''
  · intro e' he'
    by_cases hee : e' = e
    · subst hee
      rw [countKey_upsert_self_pos _ _ _ (by rw [w4 _ he']; omega)]
      exact w4 _ he'
    · rw [countKey_upsert_ne _ _ _ _ hee]
      exact w4 _ he'

theorem wf_control (em : EntityManager) (p : Entity) (inp : InputState) (s : ℚ)
    (h : WF em) : WF (playerControlSystem p em inp s) := by
  cases hb : alookup em.bodies p with
  | none => rw [playerControlSystem_none _ _ _ _ hb]; exact h
  | some rb =>
      rw [playerControlSystem_some _ _ _ _ _ hb]
      obtain ⟨w1, w2, w3, w4, w5, w6⟩ := h
      have hpk : countKey em.bodies p ≠ 0 := by
        intro hc
        have hnone := (alookup_eq_none_iff_countKey em.bodies p).mpr hc
        rw [hnone] at hb
        cases hb
      dsimp only [WF]
      refine ⟨w1, w2, ?_, w4, w5, w6⟩
      intro e' he'
      rcases countKey_pos_of_mem_upsert _ _ _ _ he' with he'' | he''
      · subst he''
        exact w3 _ hpk
      · exact w3 _ he''

theorem wf_physicsStep (dt : ℚ) (em : EntityManager) (a : Entity) (h : WF em) :
    WF (physicsStep dt em a) := by
  cases hb : alookup em.bodies a with
  | none => rw [physicsStep_skip dt em a (Or.inl hb)]; exact h
  | some rb =>
      cases ht : alookup em.transforms a with
      | none => rw [physicsStep_skip dt em a (Or.inr ht)]; exact h
      | some t =>
          obtain ⟨w1, w2, w3, w4, w5, w6⟩ := h
          have hbk : countKey em.bodies a ≠ 0 := by
            intro hc
            have hnone := (alookup_eq_none_iff_countKey em.bodies a).mpr hc
            rw [hnone] at hb
            cases hb
          have htk : countKey em.transforms a ≠ 0 := by
            intro hc
            have hnone := (alookup_eq_none_iff_countKey em.transforms a).mpr hc
            rw [hnone] at ht
            cases ht
          have hamem : a ∈ em.entities := w3 _ hbk
          unfold physicsStep
          rw [hb, ht]
          show WF { em with
            transforms := upsert em.transforms a
              { t with pos := ⟨t.pos.x + rb.vel.x * dt, t.pos.y + rb.vel.y * dt⟩ }
            bodies := upsert em.bodies a
              { rb with vel := ⟨rb.vel.x * (0.98 : ℚ), rb.vel.y * (0.98 : ℚ)⟩ } }
          dsimp only [WF]
          refine ⟨?_, w2, ?_, ?_, w5, w6⟩
          · intro e' he'
            rcases countKey_pos_of_mem_upsert _ _ _ _ he' with he'' | he''
            · subst he''
              exact hamem
            · exact w1 _ he''
          · intro e' he'
            rcases countKey_pos_of_mem_upsert _ _ _ _ he' with he'' | he''
            · subst he''
              exact hamem
            · exact w3 _ he''
          · intro e' he'
            by_cases hee : e' = a
            · subst hee
              rw [countKey_upsert_self_pos _ _ _ htk]
              exact w4 _ he'
            · rw [countKey_upsert_ne _ _ _ _ hee]
              exact w4 _ he'

theorem wf_foldl_physicsStep (dt : ℚ) (l : List Entity) :
    ∀ em : EntityManager, WF em → WF (l.foldl (physicsStep dt) em) := by
  induction l with
  | nil => intro em h; exact h
  | cons a l ih =>
      intro em h
      rw [List.foldl_cons]
      exact ih _ (wf_physicsStep dt em a h)

theorem wf_step {em em' : EntityManager} (hs : Step em em') (h : WF em) : WF em' := by
  cases hs with
  | create => exact wf_create em h
  | reset => exact wf_reset em
  | attachSprite e sp hmem => exact wf_attachSprite em e sp hmem h
  | attachBody e rb hmem => exact wf_attachBody em e rb hmem h
  | setTransform e t hmem => exact wf_setTransform em e t hmem h
  | control p inp s => exact wf_control em p inp s h
  | physics dt => exact wf_foldl_physicsStep dt em.entities em h
  | render => exact h

theorem wf_reachable {em : EntityManager} (h : Reachable em) : WF em := by
  induction h with
  | init => exact wf_init
  | step hr hs ih => exact wf_step hs ih

/-- Claim C7: in every store reachable through the core's operations, the three
component tables bind only identifiers on the live list, and every live
identifier has exactly one Transform binding. -/
theorem claim_C7 (em : EntityManager) (h : Reachable em) :
    (∀ e, countKey em.transforms e ≠ 0 → e ∈ em.entities) ∧
    (∀ e, countKey em.sprites e ≠ 0 → e ∈ em.entities) ∧
    (∀ e, countKey em.bodies e ≠ 0 → e ∈ em.entities) ∧
    (∀ e ∈ em.entities, countKey em.transforms e = 1) := by
  obtain ⟨w1, w2, w3, w4, _, _⟩ := wf_reachable h
  exact ⟨w1, w2, w3, w4⟩

/-- Concrete instantiation of the C7 theorem one create after a fresh registry:
identifier 1 is live with exactly one Transform binding. -/
theorem claim_C7_witness :
    (1 : Entity) ∈ (EntityManager.create {}).2.entities ∧
    countKey (EntityManager.create {}).2.transforms 1 = 1 := by
  have hr : Reachable (EntityManager.create {}).2 :=
    Reachable.step Reachable.init (Step.create {})
  exact ⟨(claim_C7 _ hr).1 1 (by decide), (claim_C7 _ hr).2.2.2 1 (by decide)⟩

end Engine2D
